import Mathlib

/-!
Shallow embedding of the playback engine of the qobuz-player repository
(crates `qobuz-player-controls`: `tracklist.rs`, `sink.rs`, `player.rs`),
together with theorems settling the frozen claims about it.

Conventions:
* machine integers are `Nat`/`Int` with explicit two's-complement casts where
  the source casts (`usize as i32`);
* `Duration` values are `Nat` milliseconds;
* fallible Rust code (`AppResult<T>`) becomes `Except String T`; an
  `Except.error` models the early `?` return with the error value;
* external collaborators that are out of scope of the sources under `src/`
  (remote service client, downloader, persistence, platform audio devices)
  are supplied as an explicit environment record of oracle functions.
-/

namespace QobuzPlayer

/-- Modelled from the spec (§3): track status enum of the missing crate
`qobuz-player-models` (the in-repo legacy `models.rs` has the same four
variants with `Unplayed` as `#[default]`). -/
inductive TrackStatus where
  | played
  | playing
  | unplayed
  | unplayable
deriving DecidableEq, Repr

instance : Inhabited TrackStatus := ⟨.unplayed⟩

/-- Modelled from the spec (§3): the `Track` record of the missing crate
`qobuz-player-models`.  Fields not inspected by any embedded operation
(artist, album, image links, `explicit`, `hires_available`, `number`) are
omitted; the operations of `tracklist.rs`, `player.rs` and `sink.rs`
embedded below read only `id`, `title`, `duration_seconds`, `available`
and the mutable `status`. -/
structure Track where
  id : Nat
  title : String
  durationSeconds : Nat
  available : Bool
  status : TrackStatus
deriving DecidableEq, Repr

/-- `AlbumTracklist` from `tracklist.rs`. -/
structure AlbumTracklist where
  title : String
  id : String
  image : Option String
deriving DecidableEq, Repr

/-- `PlaylistTracklist` from `tracklist.rs`. -/
structure PlaylistTracklist where
  title : String
  id : Nat
  image : Option String
deriving DecidableEq, Repr

/-- `TopTracklist` from `tracklist.rs`. -/
structure TopTracklist where
  artistName : String
  id : Nat
  image : Option String
deriving DecidableEq, Repr

/-- `TracklistType` from `tracklist.rs`. -/
inductive TracklistType where
  | album (t : AlbumTracklist)
  | playlist (t : PlaylistTracklist)
  | topTracks (t : TopTracklist)
  | tracks
deriving DecidableEq, Repr

/-- `QueueItem` from `tracklist.rs`: a track paired with a `u64` queue id. -/
structure QueueItem where
  track : Track
  id : Nat
deriving DecidableEq, Repr

/-- `Tracklist` from `tracklist.rs`. -/
structure Tracklist where
  queue : List QueueItem
  listType : TracklistType
deriving DecidableEq, Repr

/-- Two's-complement reinterpretation of a `usize` value as `i32`
(the source casts enumeration indices and positions with `as i32`). -/
def usizeAsI32 (i : Nat) : Int :=
  let r : Nat := i % 2 ^ 32
  if r < 2 ^ 31 then (r : Int) else (r : Int) - 2 ^ 32

/-- Helper for `Tracklist::new`: `tracks.into_iter().enumerate().map(...)`,
assigning each track the queue id equal to its index. -/
def newItems : Nat → List Track → List QueueItem
  | _, [] => []
  | i, t :: rest => ⟨t, i⟩ :: newItems (i + 1) rest

/-- `Tracklist::new`. -/
def Tracklist.new (listType : TracklistType) (tracks : List Track) : Tracklist :=
  ⟨newItems 0 tracks, listType⟩

/-- `Tracklist::new_with_id`. -/
def Tracklist.newWithId (listType : TracklistType) (items : List QueueItem) : Tracklist :=
  ⟨items, listType⟩

/-- `Tracklist::total`. -/
def Tracklist.total (tl : Tracklist) : Nat :=
  tl.queue.length

/-- Helper for `current_position`: first index whose track is `Playing`
(`iter().enumerate().find(...)`). -/
def findPlayingIdx : List QueueItem → Nat → Option Nat
  | [], _ => none
  | it :: rest, i =>
    if it.track.status = .playing then some i else findPlayingIdx rest (i + 1)

/-- `Tracklist::current_position`: index of the first `Playing` item,
`unwrap_or(0)`. -/
def Tracklist.currentPosition (tl : Tracklist) : Nat :=
  (findPlayingIdx tl.queue 0).getD 0

/-- Helper for `current_track`: first item whose track is `Playing`. -/
def findPlaying : List QueueItem → Option Track
  | [] => none
  | it :: rest => if it.track.status = .playing then some it.track else findPlaying rest

/-- `Tracklist::current_track`. -/
def Tracklist.currentTrack (tl : Tracklist) : Option Track :=
  findPlaying tl.queue

/-- `Tracklist::next_track`: the item at `current_position() + 1`, or
nothing when that falls outside the queue. -/
def Tracklist.nextTrack (tl : Tracklist) : Option Track :=
  let nextPosition := tl.currentPosition + 1
  if tl.total ≤ nextPosition then none
  else (tl.queue[nextPosition]?).map (·.track)

/-- `Tracklist::remove_track` (`Vec::remove`; callers keep the index in
bounds, out-of-range indices are guarded where sequences of operations are
considered). -/
def Tracklist.removeTrack (tl : Tracklist) (index : Nat) : Tracklist :=
  { tl with queue := tl.queue.eraseIdx index }

/-- `Tracklist::push_track`: appends with id `total() + 1`. -/
def Tracklist.pushTrack (tl : Tracklist) (track : Track) : Tracklist :=
  let id := tl.total + 1
  { tl with queue := tl.queue ++ [⟨track, id⟩] }

/-- `Tracklist::insert_track`: inserts at `index` with id `total() + 1`. -/
def Tracklist.insertTrack (tl : Tracklist) (index : Nat) (track : Track) : Tracklist :=
  let id := tl.total + 1
  { tl with queue := tl.queue.insertIdx index ⟨track, id⟩ }

/-- The identity test of `reorder_queue`:
`new_order.iter().enumerate().all(|(i, &v)| i == v)`. -/
def isIdentityFrom : Nat → List Nat → Bool
  | _, [] => true
  | i, v :: rest => i == v && isIdentityFrom (i + 1) rest

/-- Helper for `reorder_queue`: `new_order.iter().map(|&i| self.queue[i])`.
Returns `none` when some index is out of bounds (the Rust indexing panics
there). -/
def getMany (q : List QueueItem) : List Nat → Option (List QueueItem)
  | [] => some []
  | i :: rest =>
    match q[i]? with
    | some it => (getMany q rest).map (it :: ·)
    | none => none

/-- `Tracklist::reorder_queue`.  `none` models the index-out-of-bounds
panic branch. -/
def Tracklist.reorderQueue (tl : Tracklist) (newOrder : List Nat) : Option Tracklist :=
  if isIdentityFrom 0 newOrder then some tl
  else (getMany tl.queue newOrder).map (fun q => { tl with queue := q })

/-- `track.status = new_status` on the track of a queue item. -/
def setTrackStatus (it : QueueItem) (s : TrackStatus) : QueueItem :=
  { it with track := { it.track with status := s } }

/-- First phase of `Tracklist::reset`: every `Played | Playing` status
becomes `Unplayed`. -/
def clearPlayed (q : List QueueItem) : List QueueItem :=
  q.map (fun it =>
    if it.track.status = .played ∨ it.track.status = .playing then
      setTrackStatus it .unplayed
    else it)

/-- Second phase of `Tracklist::reset`: the first `Unplayed` item becomes
`Playing`. -/
def promoteFirstUnplayed : List QueueItem → List QueueItem
  | [] => []
  | it :: rest =>
    if it.track.status = .unplayed then
      setTrackStatus it .playing :: rest
    else it :: promoteFirstUnplayed rest

/-- `Tracklist::reset`. -/
def Tracklist.reset (tl : Tracklist) : Tracklist :=
  { tl with queue := promoteFirstUnplayed (clearPlayed tl.queue) }

/-- The loop body of `skip_to_track`: walks the queue with its enumeration
index, comparing `(index as i32)` against `new_position`; indices below
become `Played`, the matching index `Playing` (also recording the newly
playing track — a later match overwrites an earlier one, as the source
assignment does), indices above become `Unplayed`. -/
def skipLoop (newPosition : Int) : Nat → List QueueItem → List QueueItem × Option Track
  | _, [] => ([], none)
  | i, it :: rest =>
    let r := skipLoop newPosition (i + 1) rest
    let iv := usizeAsI32 i
    if iv < newPosition then
      (setTrackStatus it .played :: r.1, r.2)
    else if iv = newPosition then
      (setTrackStatus it .playing :: r.1, r.2 <|> some { it.track with status := .playing })
    else
      (setTrackStatus it .unplayed :: r.1, r.2)

/-- `Tracklist::skip_to_track`.  Returns the updated tracklist together
with the newly playing track (the Rust method mutates in place and returns
`Option<&Track>`). -/
def Tracklist.skipToTrack (tl : Tracklist) (newPosition : Int) : Tracklist × Option Track :=
  if newPosition < 0 then (tl, none)
  else
    let r := skipLoop newPosition 0 tl.queue
    ({ tl with queue := r.1 }, r.2)

/-! ### Sink (`sink.rs`)

The platform pieces (`rodio::Sink`, `rodio::OutputStream`, the sources
queue handle) are modelled by the state they expose to the embedded code:
the open stream carries its sample rate (`stream.config().sample_rate()`),
the platform sink its running position (`get_pos`, milliseconds) and its
paused flag, and the sender its list of queued sources. -/

/-- A decoded source, as produced by `DecoderBuilder` from a file: its
sample rate and its total duration (milliseconds). -/
structure Source where
  sampleRate : Nat
  totalDuration : Nat
deriving DecidableEq, Repr

/-- The platform `rodio::Sink` state visible to the embedded code. -/
structure RodioSink where
  pos : Nat
  paused : Bool
deriving DecidableEq, Repr

/-- The `Sink` struct of `sink.rs` (the volume watch receiver and the
`track_finished` sender carry no state read by the embedded operations;
`track_handle` records whether a per-source watcher task is alive). -/
structure SinkState where
  outputStream : Option Nat
  sink : Option RodioSink
  sender : Option (List Source)
  trackHandle : Bool
  durationPlayed : Nat
deriving DecidableEq, Repr

/-- `Sink::new`: every platform handle starts absent. -/
def SinkState.new : SinkState :=
  ⟨none, none, none, false, 0⟩

/-- The platform sink's reported running position:
`self.sink.as_ref().map(|sink| sink.get_pos()).unwrap_or_default()`. -/
def SinkState.reportedPos (s : SinkState) : Nat :=
  (s.sink.map (·.pos)).getD 0

/-- `Sink::position`: the platform sink's reported position (default 0
when absent), with `duration_played` subtracted, returning 0 when the
subtraction would underflow. -/
def SinkState.position (s : SinkState) : Nat :=
  let position := s.reportedPos
  if position < s.durationPlayed then 0 else position - s.durationPlayed

/-- `Sink::play`. -/
def SinkState.play (s : SinkState) : SinkState :=
  { s with sink := s.sink.map (fun rs => { rs with paused := false }) }

/-- `Sink::pause`. -/
def SinkState.pause (s : SinkState) : SinkState :=
  { s with sink := s.sink.map (fun rs => { rs with paused := true }) }

/-- `Sink::clear_queue`: zero the accumulator and clear the sender's
queued sources, keeping the stream. -/
def SinkState.clearQueue (s : SinkState) : SinkState :=
  { s with durationPlayed := 0, sender := s.sender.map (fun _ => []) }

/-- `Sink::clear`: `clear_queue`, drop sink, sender and output stream,
zero the accumulator and abort the watcher task. -/
def SinkState.clear (s : SinkState) : SinkState :=
  { s.clearQueue with
    sink := none
    sender := none
    outputStream := none
    durationPlayed := 0
    trackHandle := false }

/-- `Sink::is_empty`. -/
def SinkState.isEmpty (s : SinkState) : Bool :=
  s.sink.isNone

/-- `QueryTrackResult` from `sink.rs`. -/
inductive QueryTrackResult where
  | queued
  | recreateStreamRequired
deriving DecidableEq, Repr

/-- The body of `Sink::query_track` after the file has been decoded into a
source: compare the source's sample rate with the open stream's
(`unwrap_or(true)` when no stream is open); on mismatch return
`RecreateStreamRequired` before touching any state; otherwise (re)create
the stream, sink and sources queue when any of them is absent (the fresh
stream is opened at the source's sample rate; a fresh `rodio::Sink`
starts unpaused at position 0 with an empty queue), append the source and
spawn the completion watcher. -/
def SinkState.queryTrackDecoded (s : SinkState) (source : Source) :
    SinkState × QueryTrackResult :=
  let sameSampleRate := (s.outputStream.map (fun r => r == source.sampleRate)).getD true
  if !sameSampleRate then (s, .recreateStreamRequired)
  else
    let needsStream := s.outputStream.isNone || s.sink.isNone || s.sender.isNone
    let s1 :=
      if needsStream then
        { s with
          outputStream := some source.sampleRate
          sink := some ⟨0, false⟩
          sender := some [] }
      else s
    let s2 :=
      { s1 with
        sender := s1.sender.map (fun q => q ++ [source])
        trackHandle := true }
    (s2, .queued)

/-! ### External collaborators

The service client, the downloader, the persistence layer and the platform
audio subsystem are out of scope of the sources under `src/` (spec §1);
they enter the embedding as an environment of oracle functions. -/

/-- Environment of external collaborators observed by the player:
* `trackUrl` — `client.track_url(id)`;
* `ensureDownloaded` — `downloader.ensure_track_is_downloaded(url, track)`,
  `some path` on a cache hit, `none` when a background fetch was scheduled;
* `decodeFile` — `fs::File::open` + `DecoderBuilder` inside
  `Sink::query_track`;
* `openStream` — `open_default_stream(sample_rate)` (success/failure; on
  success the stream is open at the requested rate);
* `setTracklist` — `database.set_tracklist`;
* `trySeekOk` — whether the platform sink's `try_seek` succeeds;
* `positionSendOk` — whether the position watch still has receivers, so
  that `position.send(..)?` succeeds. -/
structure Env where
  trackUrl : Nat → Except String String
  ensureDownloaded : String → Track → Option String
  decodeFile : String → Except String Source
  openStream : Nat → Except String Unit
  setTracklist : Tracklist → Except String Unit
  trySeekOk : Bool
  positionSendOk : Bool

/-- `Sink::seek`: no-op without a platform sink; with one, `try_seek`
either fails or repositions the sink and zeroes `duration_played`. -/
def SinkState.seek (env : Env) (s : SinkState) (duration : Nat) : Except String SinkState :=
  match s.sink with
  | none => .ok s
  | some rs =>
    if env.trySeekOk then
      .ok { s with sink := some { rs with pos := duration }, durationPlayed := 0 }
    else .error "seek failed"

/-- `Sink::query_track`: decode the file at `path`, then proceed as
`queryTrackDecoded`; opening a fresh output stream may itself fail
(`open_default_stream(sample_rate)?`). -/
def SinkState.queryTrack (env : Env) (s : SinkState) (path : String) :
    Except String (SinkState × QueryTrackResult) :=
  match env.decodeFile path with
  | .error e => .error e
  | .ok source =>
    let sameSampleRate := (s.outputStream.map (fun r => r == source.sampleRate)).getD true
    if !sameSampleRate then .ok (s, .recreateStreamRequired)
    else
      let needsStream := s.outputStream.isNone || s.sink.isNone || s.sender.isNone
      match (if needsStream then env.openStream source.sampleRate else .ok ()) with
      | .error e => .error e
      | .ok _ => .ok (SinkState.queryTrackDecoded s source)

/-! ### Player (`player.rs`) -/

/-- `Status` (spec §3): target playback status. -/
inductive Status where
  | playing
  | paused
  | buffering
deriving DecidableEq, Repr

/-- The state owned by the `Player` struct that the embedded handlers read
or write: the authoritative tracklist (the value of the tracklist watch),
the target status, the sink, the last published position (milliseconds),
the two prefetch flags, and the two optional configured delays
(milliseconds; sleeping itself is not modelled, only the state changes
around it). -/
structure PlayerState where
  tracklist : Tracklist
  targetStatus : Status
  sink : SinkState
  position : Nat
  nextTrackIsQueried : Bool
  nextTrackInSinkQueue : Bool
  stateChangeDelay : Option Nat
  sampleRateChangeDelay : Option Nat
deriving Repr

/-- `set_target_status`: the watch send is infallible in the source
(`.expect("infallible")`). -/
def PlayerState.setTargetStatus (st : PlayerState) (status : Status) : PlayerState :=
  { st with targetStatus := status }

/-- `self.position.send(value)?`: fails when the position watch has no
receivers left. -/
def sendPosition (env : Env) (st : PlayerState) (value : Nat) : Except String PlayerState :=
  if env.positionSendOk then .ok { st with position := value }
  else .error "position send failed"

/-- `wait_for_state_change_delay`: when a state-change delay is configured
and the target status is `Paused`, the target becomes `Buffering` (and the
player sleeps the delay, which has no further modelled effect). -/
def PlayerState.waitForStateChangeDelay (st : PlayerState) : PlayerState :=
  if st.stateChangeDelay.isSome ∧ st.targetStatus = .paused then
    st.setTargetStatus .buffering
  else st

/-- `broadcast_tracklist`: persist through the database, then send on the
tracklist watch (which cannot fail: the player itself holds a receiver). -/
def Player.broadcastTracklist (env : Env) (st : PlayerState) (tl : Tracklist) :
    Except String PlayerState := do
  let _ ← env.setTracklist tl
  .ok { st with tracklist := tl }

/-- `Player::query_track(track, next_track)`: mark the next track queried
when asked for the next one; resolve the stream URL; on an immediate
download hit, wait out the state-change delay, query the sink (recording
whether the next track landed in the sink queue), start playback and set
the target status to `Playing`; otherwise set it to `Buffering`. -/
def Player.queryTrack (env : Env) (st : PlayerState) (track : Track) (nextTrack : Bool) :
    Except String PlayerState := do
  let st := if nextTrack then { st with nextTrackIsQueried := true } else st
  let trackUrl ← env.trackUrl track.id
  match env.ensureDownloaded trackUrl track with
  | some trackPath => do
    let st := st.waitForStateChangeDelay
    let (sink', queryResult) ← SinkState.queryTrack env st.sink trackPath
    let st := { st with sink := sink' }
    let st :=
      if nextTrack then
        { st with nextTrackInSinkQueue := queryResult == .queued }
      else st
    let st := { st with sink := st.sink.play }
    .ok (st.setTargetStatus .playing)
  | none =>
    .ok (st.setTargetStatus .buffering)

/-- `Player::seek`: seek the sink, then publish the sink's position. -/
def Player.seek (env : Env) (st : PlayerState) (duration : Nat) : Except String PlayerState := do
  let sink' ← SinkState.seek env st.sink duration
  sendPosition env { st with sink := sink' } sink'.position

/-- `Player::new_queue`: clear the sink and the prefetch flags, query the
tracklist's current track when it has one, then broadcast the tracklist. -/
def Player.newQueue (env : Env) (st : PlayerState) (tl : Tracklist) :
    Except String PlayerState := do
  let st := { st with sink := st.sink.clear, nextTrackIsQueried := false,
                      nextTrackInSinkQueue := false }
  let st ←
    match tl.currentTrack with
    | some firstTrack => Player.queryTrack env st firstTrack false
    | none => .ok st
  Player.broadcastTracklist env st tl

/-- `Player::skip_to_position(new_position, force)`: without `force`, a
backwards skip while the published position exceeds one second restarts
the current track (`seek(0)`) and returns; otherwise the position is
zeroed and `skip_to_track` decides between the new-queue path and the
reset path. -/
def Player.skipToPosition (env : Env) (st : PlayerState) (newPosition : Int) (force : Bool) :
    Except String PlayerState := do
  let tracklist := st.tracklist
  let currentPosition := tracklist.currentPosition

  if !force ∧ newPosition < usizeAsI32 currentPosition ∧ st.position > 1000 then
    Player.seek env st 0
  else
    let st ← sendPosition env st 0
    let r := tracklist.skipToTrack newPosition
    match r.2 with
    | some _ => Player.newQueue env st r.1
    | none => do
      let tracklist := r.1.reset
      let st := { st with sink := st.sink.clear, nextTrackIsQueried := false }
      let st := st.setTargetStatus .paused
      let st ← sendPosition env st 0
      Player.broadcastTracklist env st tracklist

/-- `Player::track_finished`: advance the tracklist with
`skip_to_track(current_position + 1)`.  With a next track, re-query it
unless it is already in the sink queue (clearing the sink first and
waiting out the sample-rate-change delay).  Without one, reset the
tracklist, set the target status to `Paused`, pause and clear the sink and
publish a zero position.  Either way, clear `next_track_is_queried` and
broadcast the updated tracklist. -/
def Player.trackFinished (env : Env) (st : PlayerState) : Except String PlayerState := do
  let tracklist := st.tracklist
  let currentPosition := tracklist.currentPosition
  let newPosition := currentPosition + 1
  let r := tracklist.skipToTrack (usizeAsI32 newPosition)
  match r.2 with
  | some nextTrack => do
    let st ←
      if !st.nextTrackInSinkQueue then
        Player.queryTrack env { st with sink := st.sink.clear } nextTrack false
      else .ok st
    let st := { st with nextTrackIsQueried := false }
    Player.broadcastTracklist env st r.1
  | none => do
    let tracklist := r.1.reset
    let st := st.setTargetStatus .paused
    let st := { st with sink := st.sink.pause }
    let st := { st with sink := st.sink.clear }
    let st ← sendPosition env st 0
    let st := { st with nextTrackIsQueried := false }
    Player.broadcastTracklist env st tracklist

/-! ### Player loop (`player_loop` in `player.rs`) -/

/-- Modelled from the spec (§4.5): the `Notification` enum of the missing
`notification.rs` (`Info`, `Warn`, `Success`, `Error`, each carrying a
message). -/
inductive Notification where
  | info (message : String)
  | warn (message : String)
  | success (message : String)
  | error (message : String)
deriving DecidableEq, Repr

/-- Modelled from the spec (§4.5, §7): `NotificationBroadcast::send_error`
of the missing `notification.rs` broadcasts a `Notification::Error`
carrying the stringified error. -/
def sendError (message : String) : Notification :=
  .error message

/-- `NewQueueItem` from `controls.rs` (absent from `src/`; its shape —
a track id with a queue id — is given by the spec §6 and its use in
`new_track_queue`). -/
structure NewQueueItem where
  trackId : Nat
  queueId : Nat
deriving DecidableEq, Repr

/-- `ControlCommand` from `controls.rs` (absent from `src/`; the variants
and payloads are those matched exhaustively by `handle_message` in
`player.rs` and listed in spec §6; the `f32` volume payload is carried
opaquely). -/
inductive ControlCommand where
  | album (id : String) (index : Nat)
  | playlist (id : Nat) (index : Nat) (shuffle : Bool)
  | artistTopTracks (artistId : Nat) (index : Nat)
  | track (id : Nat)
  | next
  | previous
  | playPause
  | play
  | pause
  | skipToPosition (newPosition : Nat) (force : Bool)
  | jumpForward
  | jumpBackward
  | seek (time : Nat)
  | setVolume (volume : Nat)
  | addTrackToQueue (id : Nat)
  | removeIndexFromQueue (index : Nat)
  | playTrackNext (id : Nat)
  | reorderQueue (newOrder : List Nat)
  | newQueue (items : List NewQueueItem) (play : Bool)
  | clearQueue
deriving DecidableEq, Repr

/-- One firing of the `select!` in `player_loop`: which event source won
the race. -/
inductive LoopEvent where
  | tick
  | command (c : ControlCommand)
  | trackFinished
  | doneBuffering (path : String)
  | exit (exit : Bool)
deriving DecidableEq, Repr

/-- The outcomes of the four fallible handlers called from the loop body,
abstracted to their results: the loop itself treats each handler as an
opaque fallible call. -/
structure LoopHandlers where
  tick : Except String Unit
  handleMessage : ControlCommand → Except String Unit
  trackFinishedH : Except String Unit
  doneBufferingH : String → Except String Unit

/-- One iteration of the `loop { select! { .. } }` body of `player_loop`:
for each of the four handler branches, an `Err` from the handler is turned
into `broadcast.send_error(err.to_string())` and the loop continues; the
exit branch breaks (with no notification) exactly when the received exit
flag is true.  Returns (loop breaks, notifications broadcast). -/
def playerLoopStep (h : LoopHandlers) : LoopEvent → Bool × List Notification
  | .tick =>
    match h.tick with
    | .ok _ => (false, [])
    | .error err => (false, [sendError err])
  | .command notification =>
    match h.handleMessage notification with
    | .ok _ => (false, [])
    | .error err => (false, [sendError err])
  | .trackFinished =>
    match h.trackFinishedH with
    | .ok _ => (false, [])
    | .error err => (false, [sendError err])
  | .doneBuffering path =>
    match h.doneBufferingH path with
    | .ok _ => (false, [])
    | .error err => (false, [sendError err])
  | .exit exit => (exit, [])

/-! ### Output-device selection

`open_default_stream` (`sink.rs` lines 188–202) tries the system default
device at the required sample rate and, on failure, iterates the host's
output devices, picking the first that opens at that rate or falls back.
The preferred-device-name handling referenced by `Player::new`
(`Sink::new(volume_receiver, preferred_device_name)`) lives in a revision
of `Sink::new`/`open_stream` that is not under `src/` (the `sink.rs`
present takes no device name); it is modelled from the spec below. -/

/-- An output device of the host, opaque. -/
structure AudioDevice where
  name : String
deriving DecidableEq, Repr

/-- An open output stream, opaque. -/
structure StreamHandle where
  id : Nat
deriving DecidableEq, Repr

/-- The platform audio subsystem as observed by device selection:
opening a device by name, opening the system default at a sample rate,
the host's output devices, and opening a given device at a sample rate
with fallback (`open_stream_or_fallback`). -/
structure AudioEnv where
  openNamed : String → Option StreamHandle
  openDefault : Nat → Option StreamHandle
  outputDevices : List AudioDevice
  openWithFallback : AudioDevice → Nat → Option StreamHandle

/-- First successful open among the host's output devices
(`devices.find_map(..)`). -/
def firstOpening (devices : List AudioDevice) (sampleRate : Nat) (env : AudioEnv) :
    Option StreamHandle :=
  match devices with
  | [] => none
  | d :: rest =>
    match env.openWithFallback d sampleRate with
    | some s => some s
    | none => firstOpening rest sampleRate env

/-- `open_default_stream` from `sink.rs`: the system default device at the
required sample rate, or else the first output device that opens at that
rate or falls back. -/
def openDefaultStream (sampleRate : Nat) (env : AudioEnv) : Option StreamHandle :=
  match env.openDefault sampleRate with
  | some s => some s
  | none => firstOpening env.outputDevices sampleRate env

/-- Modelled from the spec (§4.3, "Device selection"): the configured
device name, when given, is preferred; otherwise (no name configured, or
the named device fails to open) the `open_default_stream` chain of
`sink.rs` runs.  The name-aware revision of `Sink::new` is not under
`src/` (only its caller `Player::new` is). -/
def openStreamPreferring (preferredDeviceName : Option String) (sampleRate : Nat)
    (env : AudioEnv) : Option StreamHandle :=
  match preferredDeviceName with
  | some name =>
    match env.openNamed name with
    | some s => some s
    | none => openDefaultStream sampleRate env
  | none => openDefaultStream sampleRate env

/-! ### Supporting lemmas: `skip_to_track` -/

theorem usizeAsI32_small (i : Nat) (h : i < 2 ^ 31) : usizeAsI32 i = (i : Int) := by
  simp only [usizeAsI32]
  rw [Nat.mod_eq_of_lt (lt_of_lt_of_le h (by norm_num))]
  rw [if_pos h]

theorem skipLoop_length (p : Int) (q : List QueueItem) (i : Nat) :
    (skipLoop p i q).1.length = q.length := by
  induction q generalizing i with
  | nil => simp [skipLoop]
  | cons it rest ih =>
    simp only [skipLoop]
    by_cases h1 : usizeAsI32 i < p
    · simp [h1, ih]
    · by_cases h2 : usizeAsI32 i = p
      · simp [h1, h2, ih]
      · simp [h1, h2, ih]

theorem skipLoop_getElem? (p : Int) (q : List QueueItem) (i j : Nat) :
    (skipLoop p i q).1[j]? =
      (q[j]?).map (fun it =>
        setTrackStatus it
          (if usizeAsI32 (i + j) < p then .played
           else if usizeAsI32 (i + j) = p then .playing
           else .unplayed)) := by
  induction q generalizing i j with
  | nil => simp [skipLoop]
  | cons it rest ih =>
    cases j with
    | zero =>
      simp only [skipLoop, Nat.add_zero]
      by_cases h1 : usizeAsI32 i < p
      · simp [h1]
      · by_cases h2 : usizeAsI32 i = p
        · simp [h1, h2]
        · simp [h1, h2]
    | succ j =>
      have harith : i + (j + 1) = (i + 1) + j := by omega
      simp only [skipLoop]
      by_cases h1 : usizeAsI32 i < p
      · simp [h1, ih, harith]
      · by_cases h2 : usizeAsI32 i = p
        · simp [h1, h2, ih, harith]
        · simp [h1, h2, ih, harith]

theorem skipLoop_snd_none (p : Int) (q : List QueueItem) (i : Nat)
    (h : ∀ j, j < q.length → usizeAsI32 (i + j) ≠ p) :
    (skipLoop p i q).2 = none := by
  induction q generalizing i with
  | nil => simp [skipLoop]
  | cons it rest ih =>
    have h0 : usizeAsI32 i ≠ p := by
      have := h 0 (by simp)
      simpa using this
    have hrest : ∀ j, j < rest.length → usizeAsI32 (i + 1 + j) ≠ p := by
      intro j hj
      have := h (j + 1) (by simp; omega)
      have harith : i + (j + 1) = i + 1 + j := by omega
      rwa [harith] at this
    simp only [skipLoop]
    by_cases h1 : usizeAsI32 i < p
    · simp only [if_pos h1]
      exact ih _ hrest
    · simp only [if_neg h1, if_neg h0]
      exact ih _ hrest

theorem skipLoop_snd_some (p : Int) (q : List QueueItem) (i k : Nat)
    (hk : k < q.length) (hkp : usizeAsI32 (i + k) = p)
    (huniq : ∀ j, j < q.length → usizeAsI32 (i + j) = p → j = k) :
    (skipLoop p i q).2 = (q[k]?).map (fun it => { it.track with status := .playing }) := by
  induction q generalizing i k with
  | nil => simp at hk
  | cons it rest ih =>
    cases k with
    | zero =>
      have h0 : usizeAsI32 i = p := by simpa using hkp
      have hrest : (skipLoop p (i + 1) rest).2 = none := by
        apply skipLoop_snd_none
        intro j hj hjp
        have harith : i + 1 + j = i + (j + 1) := by omega
        rw [harith] at hjp
        have := huniq (j + 1) (by simp; omega) hjp
        omega
      have hnlt : ¬ (usizeAsI32 i < p) := by rw [h0]; exact lt_irrefl p
      simp only [skipLoop, if_neg hnlt, if_pos h0]
      simp [hrest]
    | succ k =>
      have h0 : usizeAsI32 i ≠ p := by
        intro h0
        have := huniq 0 (by simp) (by simpa using h0)
        omega
      have hrest : (skipLoop p (i + 1) rest).2 =
          (rest[k]?).map (fun it => { it.track with status := .playing }) := by
        apply ih
        · simpa using hk
        · have harith : i + 1 + k = i + (k + 1) := by omega
          rwa [harith]
        · intro j hj hjp
          have harith : i + 1 + j = i + (j + 1) := by omega
          rw [harith] at hjp
          have := huniq (j + 1) (by simp; omega) hjp
          omega
      simp only [skipLoop]
      by_cases h1 : usizeAsI32 i < p
      · simp only [if_pos h1]
        simpa using hrest
      · simp only [if_neg h1, if_neg h0]
        simpa using hrest

theorem findPlaying_of_first (q : List QueueItem) (k : Nat)
    (hbefore : ∀ j, j < k → ∀ it, q[j]? = some it → it.track.status ≠ .playing)
    (hat : ∃ it, q[k]? = some it ∧ it.track.status = .playing) :
    findPlaying q = (q[k]?).map (·.track) := by
  induction q generalizing k with
  | nil => obtain ⟨it, hit, _⟩ := hat; simp at hit
  | cons it rest ih =>
    cases k with
    | zero =>
      obtain ⟨it', hit', hst⟩ := hat
      simp only [List.getElem?_cons_zero, Option.some.injEq] at hit'
      subst hit'
      simp [findPlaying, hst]
    | succ k =>
      have h0 : it.track.status ≠ .playing :=
        hbefore 0 (by omega) it (by simp)
      simp only [findPlaying, if_neg h0, List.getElem?_cons_succ]
      apply ih
      · intro j hj it' hit'
        exact hbefore (j + 1) (by omega) it' (by simpa using hit')
      · simpa using hat

/-- C1: `skip_to_track(new_position)` returns nothing for a negative
position; for `0 ≤ k < total()` it marks items below `k` as `Played`, the
item at `k` as `Playing`, items above as `Unplayed`, and returns the track
at `k` (now `Playing`), which `current_track()` then reports; for a
position `≥ total()` it returns nothing and leaves no item `Playing`. -/
theorem skip_to_track_spec (tl : Tracklist) (hlen : tl.queue.length ≤ 2 ^ 31) :
    (∀ p : Int, p < 0 → tl.skipToTrack p = (tl, none)) ∧
    (∀ k : Nat, k < tl.total →
      (∀ j : Nat, j < tl.total →
        ((tl.skipToTrack (k : Int)).1.queue[j]?).map (fun it => it.track.status) =
          some (if j < k then .played else if j = k then .playing else .unplayed)) ∧
      (tl.skipToTrack (k : Int)).2 =
        (tl.queue[k]?).map (fun it => { it.track with status := .playing }) ∧
      (tl.skipToTrack (k : Int)).1.currentTrack = (tl.skipToTrack (k : Int)).2) ∧
    (∀ p : Int, (tl.total : Int) ≤ p →
      (tl.skipToTrack p).2 = none ∧
      ∀ it ∈ (tl.skipToTrack p).1.queue, it.track.status ≠ .playing) := by
  have hcast : ∀ j : Nat, j < tl.queue.length → usizeAsI32 j = (j : Int) := by
    intro j hj
    exact usizeAsI32_small j (by omega)
  refine ⟨?_, ?_, ?_⟩
  · intro p hp
    simp [Tracklist.skipToTrack, hp]
  · intro k hk
    have hk' : k < tl.queue.length := hk
    have hnneg : ¬ ((k : Int) < 0) := by omega
    have hfst : ∀ j : Nat, j < tl.total →
        ((tl.skipToTrack (k : Int)).1.queue[j]?).map (fun it => it.track.status) =
          some (if j < k then .played else if j = k then .playing else .unplayed) := by
      intro j hj
      have hj' : j < tl.queue.length := hj
      have hget := skipLoop_getElem? (k : Int) tl.queue 0 j
      rw [Nat.zero_add, hcast j hj'] at hget
      have hsome : ∃ it, tl.queue[j]? = some it := by
        rw [List.getElem?_eq_getElem hj']
        exact ⟨_, rfl⟩
      obtain ⟨it, hit⟩ := hsome
      simp only [Tracklist.skipToTrack, if_neg hnneg]
      rw [hget, hit]
      simp only [Option.map_some, Option.some.injEq, setTrackStatus]
      by_cases h1 : j < k
      · simp [h1, show (j : Int) < k by omega]
      · by_cases h2 : j = k
        · simp [h1, h2]
        · have : ¬ ((j : Int) < k) := by omega
          have hne : ¬ ((j : Int) = (k : Int)) := by omega
          simp [h1, h2, this, hne]
    have hsnd : (tl.skipToTrack (k : Int)).2 =
        (tl.queue[k]?).map (fun it => { it.track with status := .playing }) := by
      simp only [Tracklist.skipToTrack, if_neg hnneg]
      apply skipLoop_snd_some (k := k)
      · exact hk'
      · rw [Nat.zero_add]; exact hcast k hk'
      · intro j hj hjp
        rw [Nat.zero_add, hcast j hj] at hjp
        omega
    refine ⟨hfst, hsnd, ?_⟩
    rw [hsnd]
    have hlen' : (tl.skipToTrack (k : Int)).1.queue.length = tl.queue.length := by
      simp only [Tracklist.skipToTrack, if_neg hnneg]
      exact skipLoop_length _ _ _
    have hat : ∃ it, (tl.skipToTrack (k : Int)).1.queue[k]? = some it ∧
        it.track.status = .playing := by
      have := hfst k hk
      simp only [if_neg (lt_irrefl k), if_pos rfl] at this
      obtain ⟨it, hit⟩ : ∃ it, (tl.skipToTrack (k : Int)).1.queue[k]? = some it := by
        rw [List.getElem?_eq_getElem (by omega)]
        exact ⟨_, rfl⟩
      refine ⟨it, hit, ?_⟩
      rw [hit] at this
      simpa using this
    rw [Tracklist.currentTrack, findPlaying_of_first _ k _ hat]
    · have hget := skipLoop_getElem? (k : Int) tl.queue 0 k
      rw [Nat.zero_add, hcast k hk'] at hget
      simp only [Tracklist.skipToTrack, if_neg hnneg]
      rw [hget]
      obtain ⟨it, hit⟩ : ∃ it, tl.queue[k]? = some it := by
        rw [List.getElem?_eq_getElem hk']
        exact ⟨_, rfl⟩
      rw [hit]
      simp [setTrackStatus]
    · intro j hj it hit
      have := hfst j (by omega)
      rw [hit] at this
      simp only [Option.map_some', Option.some.injEq] at this
      rw [this]
      simp [if_pos hj]
  · intro p hp
    have hnneg : ¬ (p < 0) := by
      have : (0 : Int) ≤ tl.total := by positivity
      omega
    have hall : ∀ j, j < tl.queue.length → usizeAsI32 (0 + j) < p := by
      intro j hj
      rw [Nat.zero_add, hcast j hj]
      have : (j : Int) < tl.total := by
        simp only [Tracklist.total] at hp ⊢
        omega
      omega
    constructor
    · simp only [Tracklist.skipToTrack, if_neg hnneg]
      apply skipLoop_snd_none
      intro j hj
      have := hall j hj
      omega
    · intro it hit
      simp only [Tracklist.skipToTrack, if_neg hnneg] at hit
      obtain ⟨j, hj, hjit⟩ := List.getElem_of_mem hit
      have hj' : j < tl.queue.length := by
        have := skipLoop_length p tl.queue 0
        omega
      have hget := skipLoop_getElem? p tl.queue 0 j
      rw [List.getElem?_eq_getElem (by rwa [skipLoop_length]), hjit] at hget
      have hltp : usizeAsI32 j < p := by
        have := hall j hj'
        rwa [Nat.zero_add] at this
      obtain ⟨it', hit'⟩ : ∃ it', tl.queue[j]? = some it' := by
        rw [List.getElem?_eq_getElem hj']
        exact ⟨_, rfl⟩
      rw [hit'] at hget
      simp only [Option.map_some', Option.some.injEq] at hget
      rw [hget]
      simp [setTrackStatus, Nat.zero_add, if_pos hltp]

/-! ### Concrete sample data for witnesses -/

/-- A concrete available track with `Unplayed` status (the `#[default]`
status of the models crate). -/
def sampleTrack (n : Nat) : Track :=
  ⟨n, "track", 180, true, .unplayed⟩

/-- A concrete three-track tracklist. -/
def sampleTracklist : Tracklist :=
  Tracklist.new .tracks [sampleTrack 1, sampleTrack 2, sampleTrack 3]

/-- Witness for `skip_to_track_spec` at the three-track sample list. -/
theorem skip_to_track_spec_witness :
    sampleTracklist.skipToTrack (-1) = (sampleTracklist, none) ∧
    (sampleTracklist.skipToTrack ((1 : Nat) : Int)).1.currentTrack =
      (sampleTracklist.skipToTrack ((1 : Nat) : Int)).2 ∧
    (sampleTracklist.skipToTrack 5).2 = none := by
  have h := skip_to_track_spec sampleTracklist (by decide)
  exact ⟨h.1 (-1) (by decide), (h.2.1 1 (by decide)).2.2, (h.2.2 5 (by decide)).1⟩

/-! ### Supporting lemmas: counting `Playing` items -/

/-- Number of `Playing` items in a tracklist. -/
def countPlaying (tl : Tracklist) : Nat :=
  tl.queue.countP (fun it => it.track.status == .playing)

theorem skipLoop_countP_zero (p : Int) (q : List QueueItem) (i : Nat)
    (hb : i + q.length ≤ 2 ^ 31)
    (h : ∀ k, k < q.length → ((i + k : Nat) : Int) ≠ p) :
    (skipLoop p i q).1.countP (fun it => it.track.status == .playing) = 0 := by
  induction q generalizing i with
  | nil => simp [skipLoop]
  | cons it rest ih =>
    have hi : usizeAsI32 i = (i : Int) := usizeAsI32_small i (by simp at hb; omega)
    have h0 : (i : Int) ≠ p := by
      have := h 0 (by simp)
      simpa using this
    have hrest : ∀ k, k < rest.length → ((i + 1 + k : Nat) : Int) ≠ p := by
      intro k hk
      have := h (k + 1) (by simp; omega)
      have harith : i + (k + 1) = i + 1 + k := by omega
      rwa [harith] at this
    have hbrest : i + 1 + rest.length ≤ 2 ^ 31 := by simp at hb; omega
    simp only [skipLoop, hi]
    by_cases h1 : (i : Int) < p
    · simp only [if_pos h1, List.countP_cons]
      simp [setTrackStatus, ih _ hbrest hrest]
    · simp only [if_neg h1, if_neg h0, List.countP_cons]
      simp [setTrackStatus, ih _ hbrest hrest]

theorem skipLoop_countP_one (p : Int) (q : List QueueItem) (i k : Nat)
    (hb : i + q.length ≤ 2 ^ 31) (hk : k < q.length) (hp : ((i + k : Nat) : Int) = p) :
    (skipLoop p i q).1.countP (fun it => it.track.status == .playing) = 1 := by
  induction q generalizing i k with
  | nil => simp at hk
  | cons it rest ih =>
    have hi : usizeAsI32 i = (i : Int) := usizeAsI32_small i (by simp at hb; omega)
    have hbrest : i + 1 + rest.length ≤ 2 ^ 31 := by simp at hb; omega
    cases k with
    | zero =>
      have h0 : (i : Int) = p := by simpa using hp
      have hnlt : ¬ ((i : Int) < p) := by rw [h0]; exact lt_irrefl p
      have hrest : (skipLoop p (i + 1) rest).1.countP
          (fun it => it.track.status == .playing) = 0 := by
        apply skipLoop_countP_zero _ _ _ hbrest
        intro j hj
        have : ((i + 1 + j : Nat) : Int) > p := by omega
        omega
      simp only [skipLoop, hi, if_neg hnlt, if_pos h0, List.countP_cons]
      simp [setTrackStatus, hrest]
    | succ k =>
      have hlt : (i : Int) < p := by
        have : ((i + (k + 1) : Nat) : Int) = p := hp
        omega
      have hrest : (skipLoop p (i + 1) rest).1.countP
          (fun it => it.track.status == .playing) = 1 := by
        apply ih _ k hbrest (by simp at hk; omega)
        have harith : i + (k + 1) = i + 1 + k := by omega
        rwa [harith] at hp
      simp only [skipLoop, hi, if_pos hlt, List.countP_cons]
      simp [setTrackStatus, hrest]

theorem clearPlayed_not_playing (q : List QueueItem) :
    ∀ it ∈ clearPlayed q, it.track.status ≠ .playing := by
  intro it hit
  simp only [clearPlayed, List.mem_map] at hit
  obtain ⟨it', _, hf⟩ := hit
  by_cases h : it'.track.status = .played ∨ it'.track.status = .playing
  · rw [if_pos h] at hf
    rw [← hf]
    simp [setTrackStatus]
  · rw [if_neg h] at hf
    rw [← hf]
    tauto

theorem clearPlayed_any_unplayed (q : List QueueItem) (it : QueueItem)
    (hit : it ∈ q) (hst : it.track.status ≠ .unplayable) :
    (clearPlayed q).any (fun it => it.track.status == .unplayed) = true := by
  simp only [List.any_eq_true, clearPlayed, List.mem_map]
  refine ⟨_, ⟨it, hit, rfl⟩, ?_⟩
  by_cases h : it.track.status = .played ∨ it.track.status = .playing
  · simp [if_pos h, setTrackStatus]
  · rw [if_neg h]
    cases hcase : it.track.status with
    | played => exact absurd (Or.inl hcase) h
    | playing => exact absurd (Or.inr hcase) h
    | unplayed => simp [hcase]
    | unplayable => exact absurd hcase hst

theorem promoteFirstUnplayed_countP (l : List QueueItem)
    (h0 : ∀ it ∈ l, it.track.status ≠ .playing) :
    (promoteFirstUnplayed l).countP (fun it => it.track.status == .playing) =
      if l.any (fun it => it.track.status == .unplayed) then 1 else 0 := by
  induction l with
  | nil => simp [promoteFirstUnplayed]
  | cons it rest ih =>
    by_cases h : it.track.status = .unplayed
    · have hrest : rest.countP (fun it => it.track.status == .playing) = 0 := by
        rw [List.countP_eq_zero]
        intro a ha
        simpa using h0 a (List.mem_cons_of_mem _ ha)
      simp [promoteFirstUnplayed, if_pos h, List.countP_cons, setTrackStatus, hrest, h]
    · have hhead : it.track.status ≠ .playing := h0 it (List.mem_cons_self it rest)
      have ihrest := ih (fun a ha => h0 a (List.mem_cons_of_mem _ ha))
      simp only [promoteFirstUnplayed, if_neg h, List.countP_cons, ihrest, List.any_cons]
      simp [h, hhead]

/-- The amended C2: `skip_to_track(k)` with `0 ≤ k < total` leaves exactly
one `Playing` item, `reset()` leaves exactly one `Playing` item whenever
some item's status is not `Unplayable`, and the constructor `new` keeps
the statuses of the given tracks unchanged (so after `new` exactly one
item is `Playing` iff exactly one input track was). -/
theorem single_playing_invariant :
    (∀ (lt : TracklistType) (tracks : List Track),
      (Tracklist.new lt tracks).queue.map (fun it => it.track.status) =
        tracks.map (·.status)) ∧
    (∀ (tl : Tracklist) (k : Nat), tl.queue.length ≤ 2 ^ 31 → k < tl.total →
      countPlaying (tl.skipToTrack (k : Int)).1 = 1) ∧
    (∀ tl : Tracklist, (∃ it ∈ tl.queue, it.track.status ≠ .unplayable) →
      countPlaying tl.reset = 1) := by
  refine ⟨?_, ?_, ?_⟩
  · intro lt tracks
    suffices h : ∀ i, (newItems i tracks).map (fun it => it.track.status) =
        tracks.map (·.status) from h 0
    induction tracks with
    | nil => intro i; simp [newItems]
    | cons t rest ih => intro i; simp [newItems, ih]
  · intro tl k hlen hk
    have hnneg : ¬ ((k : Int) < 0) := by omega
    simp only [countPlaying, Tracklist.skipToTrack, if_neg hnneg]
    exact skipLoop_countP_one (k : Int) tl.queue 0 k (by omega) hk (by simp)
  · intro tl ⟨it, hit, hst⟩
    simp only [countPlaying, Tracklist.reset]
    rw [promoteFirstUnplayed_countP _ (clearPlayed_not_playing tl.queue)]
    rw [if_pos (clearPlayed_any_unplayed tl.queue it hit hst)]

/-- Counterexample to C2 as stated: `Tracklist::new` with a non-empty
track list does not promote any track, so no item is `Playing` right
after the constructor. -/
theorem single_playing_after_new_counterexample :
    ([sampleTrack 1] ≠ ([] : List Track)) ∧
    countPlaying (Tracklist.new .tracks [sampleTrack 1]) ≠ 1 := by
  constructor
  · simp
  · decide

/-- Witness for `single_playing_invariant` at the three-track sample. -/
theorem single_playing_invariant_witness :
    countPlaying (sampleTracklist.skipToTrack ((2 : Nat) : Int)).1 = 1 ∧
    countPlaying sampleTracklist.reset = 1 := by
  have h := single_playing_invariant
  exact ⟨h.2.1 sampleTracklist 2 (by decide) (by decide),
    h.2.2 sampleTracklist ⟨⟨sampleTrack 1, 0⟩, by decide, by decide⟩⟩

/-! ### Supporting lemmas: `reorder_queue` and queue-id freshness -/

theorem getMany_isSome (q : List QueueItem) (ord : List Nat)
    (h : ∀ v ∈ ord, v < q.length) : ∃ l, getMany q ord = some l := by
  induction ord with
  | nil => exact ⟨[], rfl⟩
  | cons v rest ih =>
    have hv : v < q.length := h v (List.mem_cons_self v rest)
    obtain ⟨x, hx⟩ : ∃ x, q[v]? = some x := by
      rw [List.getElem?_eq_getElem hv]
      exact ⟨_, rfl⟩
    obtain ⟨l, hl⟩ := ih (fun w hw => h w (List.mem_cons_of_mem _ hw))
    exact ⟨x :: l, by simp [getMany, hx, hl]⟩

theorem getMany_length (q : List QueueItem) (ord : List Nat) (l : List QueueItem)
    (h : getMany q ord = some l) : l.length = ord.length := by
  induction ord generalizing l with
  | nil => simp only [getMany, Option.some.injEq] at h; simp [← h]
  | cons v rest ih =>
    simp only [getMany] at h
    cases hx : q[v]? with
    | none => rw [hx] at h; simp at h
    | some x =>
      rw [hx] at h
      cases hrest : getMany q rest with
      | none => rw [hrest] at h; simp at h
      | some l' =>
        rw [hrest] at h
        simp only [Option.map_some', Option.some.injEq] at h
        subst h
        simp [ih l' hrest]

theorem getMany_mem_idx (q : List QueueItem) (ord : List Nat) (l : List QueueItem)
    (h : getMany q ord = some l) : ∀ x ∈ l, ∃ v ∈ ord, q[v]? = some x := by
  induction ord generalizing l with
  | nil =>
    simp only [getMany, Option.some.injEq] at h
    subst h
    simp
  | cons v rest ih =>
    simp only [getMany] at h
    cases hx : q[v]? with
    | none => rw [hx] at h; simp at h
    | some x =>
      rw [hx] at h
      cases hrest : getMany q rest with
      | none => rw [hrest] at h; simp at h
      | some l' =>
        rw [hrest] at h
        simp only [Option.map_some', Option.some.injEq] at h
        subst h
        intro y hy
        rcases List.mem_cons.mp hy with hy | hy
        · exact ⟨v, List.mem_cons_self v rest, by rw [hx, hy]⟩
        · obtain ⟨w, hw, hqw⟩ := ih l' hrest y hy
          exact ⟨w, List.mem_cons_of_mem _ hw, hqw⟩

theorem id_inj_of_nodup (q : List QueueItem) (hq : (q.map (·.id)).Nodup)
    (v w : Nat) (x y : QueueItem) (hx : q[v]? = some x) (hy : q[w]? = some y)
    (hid : x.id = y.id) : v = w := by
  have hv : v < q.length := by
    by_contra hv
    rw [List.getElem?_eq_none (by omega)] at hx
    exact Option.noConfusion hx
  have hw : w < q.length := by
    by_contra hw
    rw [List.getElem?_eq_none (by omega)] at hy
    exact Option.noConfusion hy
  have hx' : q[v] = x := by
    rw [List.getElem?_eq_getElem hv] at hx
    exact Option.some.injEq .. ▸ (by simpa using hx)
  have hy' : q[w] = y := by
    rw [List.getElem?_eq_getElem hw] at hy
    exact Option.some.injEq .. ▸ (by simpa using hy)
  have hmapv : v < (q.map (·.id)).length := by simpa using hv
  have hmapw : w < (q.map (·.id)).length := by simpa using hw
  have hmv : (q.map (·.id)).get ⟨v, hmapv⟩ = x.id := by
    simp [hx']
  have hmw : (q.map (·.id)).get ⟨w, hmapw⟩ = y.id := by
    simp [hy']
  have heq : (⟨v, hmapv⟩ : Fin (q.map (·.id)).length) = ⟨w, hmapw⟩ :=
    hq.get_inj_iff.mp (by rw [hmv, hmw, hid])
  simpa using congrArg Fin.val heq

theorem getMany_nodup_ids (q : List QueueItem) (ord : List Nat) (l : List QueueItem)
    (hq : (q.map (·.id)).Nodup) (hord : ord.Nodup) (h : getMany q ord = some l) :
    (l.map (·.id)).Nodup := by
  induction ord generalizing l with
  | nil => simp only [getMany, Option.some.injEq] at h; simp [← h]
  | cons v rest ih =>
    simp only [getMany] at h
    cases hx : q[v]? with
    | none => rw [hx] at h; simp at h
    | some x =>
      rw [hx] at h
      cases hrest : getMany q rest with
      | none => rw [hrest] at h; simp at h
      | some l' =>
        rw [hrest] at h
        simp only [Option.map_some', Option.some.injEq] at h
        subst h
        have hnd := hord
        simp only [List.nodup_cons] at hnd
        refine List.nodup_cons.mpr ⟨?_, ih l' hnd.2 hrest⟩
        intro hmem
        obtain ⟨y, hy, hyid⟩ := List.mem_map.mp hmem
        obtain ⟨w, hw, hqw⟩ := getMany_mem_idx q rest l' hrest y hy
        have : w = v := id_inj_of_nodup q hq w v y x hqw hx hyid
        exact hnd.1 (this ▸ hw)

/-- C10: every index access in `reorder_queue` is in bounds whenever the
non-identity order's entries are all below `total()`; and a one-element
queue reordered by `[1]` reaches the out-of-bounds branch. -/
theorem reorder_queue_bounds :
    (∀ (tl : Tracklist) (newOrder : List Nat),
      isIdentityFrom 0 newOrder = false →
      (∀ v ∈ newOrder, v < tl.total) →
      ∃ tl', tl.reorderQueue newOrder = some tl') ∧
    (Tracklist.new .tracks [sampleTrack 1]).reorderQueue [1] = none := by
  constructor
  · intro tl newOrder hnid hbound
    obtain ⟨l, hl⟩ := getMany_isSome tl.queue newOrder hbound
    exact ⟨{ tl with queue := l }, by simp [Tracklist.reorderQueue, hnid, hl]⟩
  · decide

/-- Witness for `reorder_queue_bounds`: the three-track sample reversed. -/
theorem reorder_queue_bounds_witness :
    ∃ tl', sampleTracklist.reorderQueue [2, 1, 0] = some tl' :=
  reorder_queue_bounds.1 sampleTracklist [2, 1, 0] (by decide) (by decide)

/-! ### Queue-id freshness under sequences of queue operations (C8) -/

/-- A queue-manipulation operation of the tracklist. -/
inductive QueueOp where
  | push (t : Track)
  | insert (i : Nat) (t : Track)
  | remove (i : Nat)
  | reorder (ord : List Nat)
deriving DecidableEq, Repr

/-- Apply one operation; `none` models the panicking out-of-range cases of
`Vec::remove`, `Vec::insert` and of the indexing in `reorder_queue`. -/
def applyOp (tl : Tracklist) : QueueOp → Option Tracklist
  | .push t => some (tl.pushTrack t)
  | .insert i t => if i ≤ tl.total then some (tl.insertTrack i t) else none
  | .remove i => if i < tl.total then some (tl.removeTrack i) else none
  | .reorder ord => tl.reorderQueue ord

/-- Apply a sequence of operations left to right. -/
def applyOps : Tracklist → List QueueOp → Option Tracklist
  | tl, [] => some tl
  | tl, op :: rest =>
    match applyOp tl op with
    | some tl' => applyOps tl' rest
    | none => none

/-- The operations covered by the amended C8: `push_track`, in-range
`insert_track`, and `reorder_queue` with a true permutation of
`0..total-1` (`remove_track` is excluded — see the counterexample). -/
def safeOp (tl : Tracklist) : QueueOp → Bool
  | .push _ => true
  | .insert i _ => decide (i ≤ tl.total)
  | .remove _ => false
  | .reorder ord =>
    decide (ord.length = tl.total) && decide ord.Nodup &&
      ord.all (fun v => decide (v < tl.total))

/-- A sequence of operations each safe in the state where it runs. -/
def safeSeq (tl : Tracklist) : List QueueOp → Bool
  | [] => true
  | op :: rest =>
    safeOp tl op &&
      match applyOp tl op with
      | some tl' => safeSeq tl' rest
      | none => false

/-- The id invariant: queue ids pairwise distinct and all `≤ total()`. -/
def idsOk (tl : Tracklist) : Prop :=
  (tl.queue.map (·.id)).Nodup ∧ ∀ id ∈ tl.queue.map (·.id), id ≤ tl.total

theorem newItems_length (i : Nat) (tracks : List Track) :
    (newItems i tracks).length = tracks.length := by
  induction tracks generalizing i with
  | nil => simp [newItems]
  | cons t rest ih => simp [newItems, ih]

theorem newItems_id_bounds (i : Nat) (tracks : List Track) :
    ∀ id ∈ (newItems i tracks).map (·.id), i ≤ id ∧ id < i + tracks.length := by
  induction tracks generalizing i with
  | nil => simp [newItems]
  | cons t rest ih =>
    intro id hid
    simp only [newItems, List.map_cons, List.mem_cons] at hid
    rcases hid with hid | hid
    · subst hid
      simp
    · have := ih (i + 1) id hid
      simp only [List.length_cons]
      omega

theorem newItems_ids_nodup (i : Nat) (tracks : List Track) :
    ((newItems i tracks).map (·.id)).Nodup := by
  induction tracks generalizing i with
  | nil => simp [newItems]
  | cons t rest ih =>
    simp only [newItems, List.map_cons, List.nodup_cons]
    refine ⟨?_, ih (i + 1)⟩
    intro hmem
    have := newItems_id_bounds (i + 1) rest i hmem
    omega

theorem idsOk_new (lt : TracklistType) (tracks : List Track) :
    idsOk (Tracklist.new lt tracks) := by
  refine ⟨newItems_ids_nodup 0 tracks, ?_⟩
  intro id hid
  have := newItems_id_bounds 0 tracks id hid
  simp only [Tracklist.new, Tracklist.total, newItems_length]
  omega

theorem idsOk_push (tl : Tracklist) (t : Track) (h : idsOk tl) :
    idsOk (tl.pushTrack t) := by
  obtain ⟨hnd, hbd⟩ := h
  constructor
  · simp only [Tracklist.pushTrack, List.map_append, List.map_cons, List.map_nil]
    rw [List.nodup_append]
    refine ⟨hnd, by simp, ?_⟩
    intro id hid
    have := hbd id hid
    simp only [List.mem_singleton]
    intro hc
    rw [hc] at this
    simp only [Tracklist.total] at this
    omega
  · intro id hid
    simp only [Tracklist.pushTrack, List.map_append, List.map_cons, List.map_nil,
      List.mem_append, List.mem_singleton] at hid
    simp only [Tracklist.pushTrack, Tracklist.total, List.length_append, List.length_cons,
      List.length_nil]
    rcases hid with hid | hid
    · have := hbd id hid
      simp only [Tracklist.total] at this
      omega
    · simp only [Tracklist.total] at hid
      omega

theorem map_id_insertIdx (n : Nat) (l : List QueueItem) (a : QueueItem) :
    (l.insertIdx n a).map (·.id) = (l.map (·.id)).insertIdx n a.id := by
  induction n generalizing l with
  | zero => simp [List.insertIdx_zero]
  | succ n ih =>
    cases l with
    | nil => simp [List.insertIdx_succ_nil]
    | cons x rest => simp [List.insertIdx_succ_cons, ih]

theorem nodup_insertIdx_nat (l : List Nat) (x : Nat) (n : Nat) (hn : n ≤ l.length)
    (hx : x ∉ l) (hl : l.Nodup) : (l.insertIdx n x).Nodup := by
  induction n generalizing l with
  | zero => simp only [List.insertIdx_zero, List.nodup_cons]; exact ⟨hx, hl⟩
  | succ n ih =>
    cases l with
    | nil => simp at hn
    | cons a rest =>
      simp only [List.insertIdx_succ_cons, List.nodup_cons]
      simp only [List.nodup_cons] at hl
      simp only [List.mem_cons, not_or] at hx
      refine ⟨?_, ih rest (by simpa using hn) hx.2 hl.2⟩
      intro hmem
      rw [List.mem_insertIdx (by simpa using hn)] at hmem
      rcases hmem with hmem | hmem
      · exact hx.1 hmem.symm
      · exact hl.1 hmem

theorem mem_of_mem_insertIdx_nat (l : List Nat) (x y : Nat) (n : Nat) (hn : n ≤ l.length)
    (hy : y ∈ l.insertIdx n x) : y = x ∨ y ∈ l :=
  (List.mem_insertIdx hn).mp hy

theorem idsOk_insert (tl : Tracklist) (i : Nat) (t : Track) (hi : i ≤ tl.total)
    (h : idsOk tl) : idsOk (tl.insertTrack i t) := by
  obtain ⟨hnd, hbd⟩ := h
  have hilen : i ≤ (tl.queue.map (·.id)).length := by
    simpa [Tracklist.total] using hi
  have hfresh : tl.total + 1 ∉ tl.queue.map (·.id) := by
    intro hc
    have := hbd _ hc
    omega
  have htot : (tl.insertTrack i t).total = tl.total + 1 := by
    simp only [Tracklist.insertTrack, Tracklist.total]
    exact List.length_insertIdx i tl.queue (by simpa [Tracklist.total] using hi)
  constructor
  · simp only [Tracklist.insertTrack, map_id_insertIdx]
    exact nodup_insertIdx_nat _ _ i hilen hfresh hnd
  · intro id hid
    rw [htot]
    simp only [Tracklist.insertTrack, map_id_insertIdx] at hid
    rcases mem_of_mem_insertIdx_nat _ _ id i hilen hid with hc | hc
    · omega
    · have := hbd id hc
      omega

theorem idsOk_reorder (tl : Tracklist) (ord : List Nat) (tl' : Tracklist)
    (hlen : ord.length = tl.total) (hnd : ord.Nodup) (_hbd : ∀ v ∈ ord, v < tl.total)
    (h : idsOk tl) (happ : tl.reorderQueue ord = some tl') : idsOk tl' := by
  obtain ⟨hqnd, hqbd⟩ := h
  by_cases hid : isIdentityFrom 0 ord
  · simp only [Tracklist.reorderQueue, if_pos hid, Option.some.injEq] at happ
    subst happ
    exact ⟨hqnd, hqbd⟩
  · simp only [Tracklist.reorderQueue, if_neg hid] at happ
    cases hgm : getMany tl.queue ord with
    | none => rw [hgm] at happ; simp at happ
    | some l =>
      rw [hgm] at happ
      simp only [Option.map_some', Option.some.injEq] at happ
      subst happ
      have hlength : l.length = tl.queue.length := by
        rw [getMany_length tl.queue ord l hgm, hlen]
        rfl
      constructor
      · exact getMany_nodup_ids tl.queue ord l hqnd hnd hgm
      · intro id hmem
        obtain ⟨x, hx, hxid⟩ := List.mem_map.mp hmem
        obtain ⟨v, _, hqv⟩ := getMany_mem_idx tl.queue ord l hgm x hx
        have hxq : x ∈ tl.queue := by
          have hv : v < tl.queue.length := by
            by_contra hv
            rw [List.getElem?_eq_none (by omega)] at hqv
            exact Option.noConfusion hqv
          rw [List.getElem?_eq_getElem hv] at hqv
          have hx' : tl.queue[v] = x := by simpa using hqv
          exact hx' ▸ List.getElem_mem hv
        have : id ∈ tl.queue.map (·.id) := by
          exact List.mem_map.mpr ⟨x, hxq, hxid⟩
        have := hqbd id this
        simp only [Tracklist.total] at this ⊢
        omega

theorem safeSeq_idsOk (ops : List QueueOp) (tl : Tracklist) (hsafe : safeSeq tl ops = true)
    (h : idsOk tl) : ∀ tl', applyOps tl ops = some tl' → idsOk tl' := by
  induction ops generalizing tl with
  | nil =>
    intro tl' happ
    simp only [applyOps, Option.some.injEq] at happ
    subst happ
    exact h
  | cons op rest ih =>
    intro tl' happ
    simp only [safeSeq, Bool.and_eq_true] at hsafe
    simp only [applyOps] at happ
    cases hstep : applyOp tl op with
    | none => rw [hstep] at happ; simp at happ
    | some tl1 =>
      rw [hstep] at happ
      rw [hstep] at hsafe
      refine ih tl1 hsafe.2 ?_ tl' happ
      cases op with
      | push t =>
        simp only [applyOp, Option.some.injEq] at hstep
        subst hstep
        exact idsOk_push tl t h
      | insert i t =>
        have hle : i ≤ tl.total := by
          have := hsafe.1
          simpa [safeOp] using this
        simp only [applyOp, if_pos hle, Option.some.injEq] at hstep
        subst hstep
        exact idsOk_insert tl i t hle h
      | remove i =>
        have := hsafe.1
        simp [safeOp] at this
      | reorder ord =>
        have hperm := hsafe.1
        simp only [safeOp, Bool.and_eq_true, decide_eq_true_eq, List.all_eq_true] at hperm
        refine idsOk_reorder tl ord tl1 hperm.1.1 hperm.1.2 ?_ h hstep
        intro v hv
        simpa using hperm.2 v hv

/-- The amended C8: starting from `new`, any sequence of `push_track`,
in-range `insert_track` and `reorder_queue` with a true permutation keeps
the queue ids pairwise distinct (and bounded by `total()`); the assigned
id `total() + 1` is fresh in these states because every present id is at
most `total()`.  Freshness fails once `remove_track` enters the sequence —
see the counterexample. -/
theorem queue_ids_distinct_safe_ops (lt : TracklistType) (tracks : List Track)
    (ops : List QueueOp) (hsafe : safeSeq (Tracklist.new lt tracks) ops = true) :
    ∀ tl', applyOps (Tracklist.new lt tracks) ops = some tl' →
      (tl'.queue.map (·.id)).Nodup ∧ ∀ id ∈ tl'.queue.map (·.id), id ≤ tl'.total :=
  safeSeq_idsOk ops (Tracklist.new lt tracks) hsafe (idsOk_new lt tracks)

/-- Counterexample to C8 as stated: from `new` with one track
(ids `[0]`), `push_track` (assigns id 2, ids `[0, 2]`), `remove_track(0)`
(ids `[2]`, total 1), then `push_track` assigns id `total() + 1 = 2`,
which already belongs to a queued item: the ids are `[2, 2]`. -/
theorem queue_ids_distinct_counterexample :
    ((((Tracklist.new .tracks [sampleTrack 1]).pushTrack
        (sampleTrack 2)).removeTrack 0).pushTrack (sampleTrack 3)).queue.map (·.id) =
      [2, 2] ∧
    ¬ (((((Tracklist.new .tracks [sampleTrack 1]).pushTrack
        (sampleTrack 2)).removeTrack 0).pushTrack (sampleTrack 3)).queue.map (·.id)).Nodup := by
  constructor
  · decide
  · decide

/-- Witness for `queue_ids_distinct_safe_ops`: push, insert and a
permutation reorder on the three-track sample. -/
theorem queue_ids_distinct_safe_ops_witness :
    ∃ tl', applyOps (Tracklist.new .tracks [sampleTrack 1, sampleTrack 2, sampleTrack 3])
        [.push (sampleTrack 4), .insert 1 (sampleTrack 5), .reorder [4, 3, 2, 1, 0]] =
        some tl' ∧
      (tl'.queue.map (·.id)).Nodup := by
  have h := queue_ids_distinct_safe_ops .tracks [sampleTrack 1, sampleTrack 2, sampleTrack 3]
    [.push (sampleTrack 4), .insert 1 (sampleTrack 5), .reorder [4, 3, 2, 1, 0]]
    (by decide)
  cases happ : applyOps (Tracklist.new .tracks [sampleTrack 1, sampleTrack 2, sampleTrack 3])
      [.push (sampleTrack 4), .insert 1 (sampleTrack 5), .reorder [4, 3, 2, 1, 0]] with
  | none => exact absurd happ (by decide)
  | some tl' => exact ⟨tl', rfl, (h tl' happ).1⟩

/-! ### Sink laws (C7, C4) -/

/-- C7: `position()` is the platform sink's reported running position
minus the accumulated `duration_played`, clamped at zero (so it is the
integer `max`), and it is zero when no platform sink exists. -/
theorem sink_position_spec (s : SinkState) :
    ((s.position : Int) = max 0 ((s.reportedPos : Int) - (s.durationPlayed : Int))) ∧
    (s.sink = none → s.position = 0) := by
  constructor
  · simp only [SinkState.position]
    rcases Nat.lt_or_ge s.reportedPos s.durationPlayed with h | h
    · have hx : (s.reportedPos : Int) - (s.durationPlayed : Int) ≤ 0 := by omega
      rw [if_pos h, max_eq_left hx]
      simp
    · have hx : (0 : Int) ≤ (s.reportedPos : Int) - (s.durationPlayed : Int) := by omega
      rw [if_neg (by omega), max_eq_right hx]
      omega
  · intro h
    simp [SinkState.position, SinkState.reportedPos, h]

/-- Witness for `sink_position_spec`: a sink without a platform sink
reports position zero even with a nonzero accumulator. -/
theorem sink_position_spec_witness :
    SinkState.position ⟨none, none, none, false, 5⟩ = 0 :=
  (sink_position_spec ⟨none, none, none, false, 5⟩).2 rfl

/-- C4: on a decodable file, `query_track` appends the source to the
internal queue and returns `Queued` when no stream exists or the sample
rates match; when the rates differ it returns `RecreateStreamRequired`
and the sink state is exactly unchanged. -/
theorem query_track_spec (env : Env) (s : SinkState) (path : String) (source : Source)
    (hdec : env.decodeFile path = .ok source)
    (hopen : env.openStream source.sampleRate = .ok ()) :
    ((s.outputStream = none ∨ s.outputStream = some source.sampleRate) →
      ∃ s' q, SinkState.queryTrack env s path = .ok (s', .queued) ∧
        s'.sender = some (q ++ [source])) ∧
    (∀ r : Nat, s.outputStream = some r → r ≠ source.sampleRate →
      SinkState.queryTrack env s path = .ok (s, .recreateStreamRequired)) := by
  constructor
  · intro hsame
    have hrate : ((s.outputStream.map (fun r => r == source.sampleRate)).getD true) = true := by
      rcases hsame with h | h <;> simp [h]
    by_cases hneed : (s.outputStream.isNone || s.sink.isNone || s.sender.isNone) = true
    · refine ⟨(SinkState.queryTrackDecoded s source).1, [], ?_, ?_⟩
      · simp [SinkState.queryTrack, SinkState.queryTrackDecoded, hdec, hrate, hneed, hopen]
      · simp [SinkState.queryTrackDecoded, hrate, hneed]
    · have hneed' : (s.outputStream.isNone || s.sink.isNone || s.sender.isNone) = false := by
        cases h : (s.outputStream.isNone || s.sink.isNone || s.sender.isNone) with
        | false => rfl
        | true => exact absurd h hneed
      have hfacts : ¬ s.outputStream = none ∧ ¬ s.sink = none ∧ ¬ s.sender = none := by
        have h := hneed'
        simp only [Bool.or_eq_false_iff, Option.isNone_eq_false_iff,
          Option.isSome_iff_ne_none] at h
        exact ⟨h.1.1, h.1.2, h.2⟩
      obtain ⟨qs, hqs⟩ : ∃ qs, s.sender = some qs := by
        rcases hs : s.sender with _ | qs
        · exact absurd hs hfacts.2.2
        · exact ⟨qs, rfl⟩
      refine ⟨(SinkState.queryTrackDecoded s source).1, qs, ?_, ?_⟩
      · simp [SinkState.queryTrack, SinkState.queryTrackDecoded, hdec, hrate, hneed', hopen,
          hfacts.1, hfacts.2.1]
      · simp [SinkState.queryTrackDecoded, hrate, hneed', hqs, hfacts.1, hfacts.2.1]
  · intro r hr hne
    have hrate : ((s.outputStream.map (fun r => r == source.sampleRate)).getD true) = false := by
      simp [hr, hne]
    simp [SinkState.queryTrack, hdec, hrate]

/-- A concrete environment for witnesses: a one-track world where every
collaborator succeeds and files decode to a 44.1 kHz, 3-minute source. -/
def sampleEnv : Env :=
  ⟨fun _ => .ok "https://example/stream", fun _ _ => some "/cache/1.flac",
    fun _ => .ok ⟨44100, 180000⟩, fun _ => .ok (), fun _ => .ok (), true, true⟩

/-- A sink whose open stream runs at 48 kHz (mismatching `sampleEnv`'s
44.1 kHz sources). -/
def sampleSinkAt48k : SinkState :=
  ⟨some 48000, some ⟨1000, false⟩, some [], true, 0⟩

/-- Witness for `query_track_spec`: a fresh sink queues the decoded
source; a 48 kHz sink asked for a 44.1 kHz file reports
`RecreateStreamRequired` unchanged. -/
theorem query_track_spec_witness :
    (∃ s' q, SinkState.queryTrack sampleEnv SinkState.new "/cache/1.flac" =
        .ok (s', .queued) ∧ s'.sender = some (q ++ [⟨44100, 180000⟩])) ∧
    SinkState.queryTrack sampleEnv sampleSinkAt48k "/cache/1.flac" =
      .ok (sampleSinkAt48k, .recreateStreamRequired) := by
  constructor
  · exact (query_track_spec sampleEnv SinkState.new "/cache/1.flac" ⟨44100, 180000⟩
      rfl rfl).1 (Or.inl rfl)
  · exact (query_track_spec sampleEnv sampleSinkAt48k "/cache/1.flac" ⟨44100, 180000⟩
      rfl rfl).2 48000 rfl (by decide)

/-! ### Supporting lemmas: player handlers (C3, C5) -/

theorem except_bind_ok {ε α β : Type} (a : α) (f : α → Except ε β) :
    ((Except.ok a : Except ε α) >>= f) = f a := rfl

theorem except_pure_eq {ε α : Type} (a : α) :
    (pure a : Except ε α) = Except.ok a := rfl

theorem findPlayingIdx_bounds (q : List QueueItem) (i j : Nat)
    (h : findPlayingIdx q i = some j) : i ≤ j ∧ j < i + q.length := by
  induction q generalizing i with
  | nil => simp [findPlayingIdx] at h
  | cons it rest ih =>
    simp only [findPlayingIdx] at h
    by_cases hst : it.track.status = .playing
    · rw [if_pos hst] at h
      simp only [Option.some.injEq] at h
      subst h
      simp
    · rw [if_neg hst] at h
      have := ih (i + 1) h
      constructor
      · omega
      · simp only [List.length_cons]
        omega

theorem currentPosition_cases (tl : Tracklist) :
    tl.currentPosition = 0 ∨ tl.currentPosition < tl.queue.length := by
  simp only [Tracklist.currentPosition]
  cases h : findPlayingIdx tl.queue 0 with
  | none => simp
  | some j =>
    have := findPlayingIdx_bounds tl.queue 0 j h
    simp only [Option.getD_some]
    omega

theorem currentPosition_lt (tl : Tracklist) (hne : tl.queue ≠ []) :
    tl.currentPosition < tl.queue.length := by
  rcases currentPosition_cases tl with h | h
  · rw [h]
    exact List.length_pos.mpr hne
  · exact h

theorem total_le_of_nextTrack_none (tl : Tracklist) (h : tl.nextTrack = none) :
    tl.total ≤ tl.currentPosition + 1 := by
  by_contra h'
  push_neg at h'
  simp only [Tracklist.nextTrack] at h
  rw [if_neg (by omega)] at h
  have hlt : tl.currentPosition + 1 < tl.queue.length := h'
  rw [List.getElem?_eq_getElem hlt] at h
  simp at h

theorem skipToTrack_all_played (tl : Tracklist) (p : Int) (hlen : tl.queue.length ≤ 2 ^ 31)
    (hp : (tl.total : Int) ≤ p) :
    ∀ it ∈ (tl.skipToTrack p).1.queue, it.track.status = .played := by
  have hnneg : ¬ (p < 0) := by
    have : (0 : Int) ≤ tl.total := by positivity
    omega
  intro it hit
  simp only [Tracklist.skipToTrack, if_neg hnneg] at hit
  obtain ⟨j, hj, hjit⟩ := List.getElem_of_mem hit
  have hj' : j < tl.queue.length := by
    have := skipLoop_length p tl.queue 0
    omega
  have hcast : usizeAsI32 j = (j : Int) := usizeAsI32_small j (by omega)
  have hltp : usizeAsI32 j < p := by
    rw [hcast]
    have : (j : Int) < tl.total := by
      simp only [Tracklist.total]
      omega
    omega
  have hget := skipLoop_getElem? p tl.queue 0 j
  rw [List.getElem?_eq_getElem (by rwa [skipLoop_length]), hjit] at hget
  obtain ⟨it', hit'⟩ : ∃ it', tl.queue[j]? = some it' := by
    rw [List.getElem?_eq_getElem hj']
    exact ⟨_, rfl⟩
  rw [hit'] at hget
  simp only [Option.map_some', Option.some.injEq] at hget
  rw [hget]
  simp only [Nat.zero_add] at hltp ⊢
  simp [setTrackStatus, if_pos hltp]

theorem reset_head_playing (tl : Tracklist) (hne : tl.queue ≠ [])
    (hall : ∀ x ∈ tl.queue, x.track.status = .played) :
    (tl.reset.queue.head?.map (fun x => x.track.status) = some .playing) ∧
    tl.reset.currentPosition = 0 := by
  obtain ⟨it, rest, hq⟩ := List.exists_cons_of_ne_nil hne
  have hit : it.track.status = .played := hall it (by rw [hq]; exact List.mem_cons_self it rest)
  have hclear : clearPlayed tl.queue =
      setTrackStatus it .unplayed :: clearPlayed rest := by
    rw [hq]
    simp [clearPlayed, if_pos (Or.inl hit)]
  have hpromote : promoteFirstUnplayed (clearPlayed tl.queue) =
      setTrackStatus (setTrackStatus it .unplayed) .playing :: clearPlayed rest := by
    rw [hclear]
    simp [promoteFirstUnplayed, setTrackStatus]
  constructor
  · simp [Tracklist.reset, hpromote, setTrackStatus]
  · simp [Tracklist.reset, Tracklist.currentPosition, hpromote, findPlayingIdx, setTrackStatus]

/-- C3: when the finished track was the last one (`next_track()` is
nothing), the track-finished handler resets the tracklist (first item
`Playing` again, `current_position() = 0`), sets the target status to
`Paused`, pauses and clears the sink, publishes a zero position and
broadcasts the reset tracklist. -/
theorem track_finished_last_track (env : Env) (st : PlayerState)
    (hne : st.tracklist.queue ≠ [])
    (hnext : st.tracklist.nextTrack = none)
    (hlen : st.tracklist.queue.length < 2 ^ 31)
    (hsend : env.positionSendOk = true)
    (hdb : ∀ tl, env.setTracklist tl = .ok ()) :
    ∃ st', Player.trackFinished env st = .ok st' ∧
      st'.targetStatus = .paused ∧
      st'.sink = st.sink.pause.clear ∧
      st'.sink.isEmpty = true ∧
      st'.position = 0 ∧
      st'.nextTrackIsQueried = false ∧
      st'.tracklist =
        ((st.tracklist.skipToTrack
          (usizeAsI32 (st.tracklist.currentPosition + 1))).1).reset ∧
      st'.tracklist.currentPosition = 0 ∧
      st'.tracklist.queue.head?.map (fun it => it.track.status) = some .playing := by
  have hcur : st.tracklist.currentPosition < st.tracklist.queue.length :=
    currentPosition_lt st.tracklist hne
  have hcast : usizeAsI32 (st.tracklist.currentPosition + 1) =
      ((st.tracklist.currentPosition + 1 : Nat) : Int) :=
    usizeAsI32_small _ (by omega)
  have htot : st.tracklist.total ≤ st.tracklist.currentPosition + 1 :=
    total_le_of_nextTrack_none st.tracklist hnext
  have hp : (st.tracklist.total : Int) ≤ usizeAsI32 (st.tracklist.currentPosition + 1) := by
    rw [hcast]
    exact_mod_cast htot
  have hsnd : (st.tracklist.skipToTrack (usizeAsI32 (st.tracklist.currentPosition + 1))).2 =
      none := by
    have hnneg : ¬ (usizeAsI32 (st.tracklist.currentPosition + 1) < 0) := by
      have : (0 : Int) ≤ st.tracklist.total := by positivity
      omega
    simp only [Tracklist.skipToTrack, if_neg hnneg]
    apply skipLoop_snd_none
    intro j hj
    have := usizeAsI32_small j (by omega)
    rw [Nat.zero_add, this]
    have : (j : Int) < st.tracklist.total := by
      simp only [Tracklist.total]
      omega
    omega
  have hallplayed : ∀ it ∈ (st.tracklist.skipToTrack
      (usizeAsI32 (st.tracklist.currentPosition + 1))).1.queue, it.track.status = .played :=
    skipToTrack_all_played st.tracklist _ (by omega) hp
  have hskipne : (st.tracklist.skipToTrack
      (usizeAsI32 (st.tracklist.currentPosition + 1))).1.queue ≠ [] := by
    have hnneg : ¬ (usizeAsI32 (st.tracklist.currentPosition + 1) < 0) := by
      have : (0 : Int) ≤ st.tracklist.total := by positivity
      omega
    simp only [Tracklist.skipToTrack, if_neg hnneg]
    have := skipLoop_length (usizeAsI32 (st.tracklist.currentPosition + 1)) st.tracklist.queue 0
    intro hc
    rw [hc] at this
    simp only [List.length_nil] at this
    have hpos : 0 < st.tracklist.queue.length := List.length_pos.mpr hne
    omega
  have hreset := reset_head_playing _ hskipne hallplayed
  refine ⟨{ st with
      tracklist := ((st.tracklist.skipToTrack
        (usizeAsI32 (st.tracklist.currentPosition + 1))).1).reset
      targetStatus := .paused
      sink := st.sink.pause.clear
      position := 0
      nextTrackIsQueried := false }, ?_, rfl, rfl, rfl, rfl, rfl, rfl, hreset.2, hreset.1⟩
  simp only [Player.trackFinished]
  rw [hsnd]
  simp [sendPosition, hsend, Player.broadcastTracklist, hdb, PlayerState.setTargetStatus,
    except_bind_ok]

/-- A concrete player state: a single-track tracklist whose only track is
`Playing`, near the end of playback. -/
def samplePlayerState : PlayerState :=
  { tracklist := ⟨[⟨{ sampleTrack 1 with status := .playing }, 0⟩], .tracks⟩
    targetStatus := .playing
    sink := sampleSinkAt48k
    position := 170000
    nextTrackIsQueried := false
    nextTrackInSinkQueue := false
    stateChangeDelay := none
    sampleRateChangeDelay := none }

/-- Witness for `track_finished_last_track` at the one-track sample state. -/
theorem track_finished_last_track_witness :
    ∃ st', Player.trackFinished sampleEnv samplePlayerState = .ok st' ∧
      st'.targetStatus = .paused ∧ st'.position = 0 := by
  obtain ⟨st', h1, h2, _, _, h5, _⟩ :=
    track_finished_last_track sampleEnv samplePlayerState (by decide) (by decide)
      (by decide) rfl (fun _ => rfl)
  exact ⟨st', h1, h2, h5⟩

/-- C5: `skip_to_position(new_position, force = false)` with a backward
target while the published position exceeds one second only seeks the
sink to zero: the tracklist (hence the `Playing` track), the target
status, the sink's stream and queued sources and the prefetch flags are
all unchanged, and no track is queried. -/
theorem skip_to_position_restart (env : Env) (st : PlayerState) (newPosition : Int)
    (hlen : st.tracklist.queue.length ≤ 2 ^ 31)
    (hseek : env.trySeekOk = true)
    (hsend : env.positionSendOk = true)
    (hlt : newPosition < (st.tracklist.currentPosition : Int))
    (hpos : st.position > 1000) :
    ∃ sink', SinkState.seek env st.sink 0 = .ok sink' ∧
      Player.skipToPosition env st newPosition false =
        .ok { st with sink := sink', position := sink'.position } ∧
      sink'.sender = st.sink.sender ∧
      sink'.outputStream = st.sink.outputStream ∧
      ∀ st', Player.skipToPosition env st newPosition false = .ok st' →
        st'.tracklist = st.tracklist ∧
        st'.tracklist.currentTrack = st.tracklist.currentTrack ∧
        st'.targetStatus = st.targetStatus ∧
        st'.nextTrackIsQueried = st.nextTrackIsQueried ∧
        st'.nextTrackInSinkQueue = st.nextTrackInSinkQueue := by
  have hcur : st.tracklist.currentPosition < 2 ^ 31 := by
    rcases currentPosition_cases st.tracklist with h | h
    · omega
    · omega
  have hcast : usizeAsI32 st.tracklist.currentPosition =
      (st.tracklist.currentPosition : Int) := usizeAsI32_small _ hcur
  have hcond : (!false : Bool) = true ∧ newPosition < usizeAsI32 st.tracklist.currentPosition ∧
      st.position > 1000 := ⟨rfl, by rwa [hcast], hpos⟩
  obtain ⟨sink', hsk, hsend', houts⟩ :
      ∃ sink', SinkState.seek env st.sink 0 = .ok sink' ∧
        sink'.sender = st.sink.sender ∧ sink'.outputStream = st.sink.outputStream := by
    cases hs : st.sink.sink with
    | none => exact ⟨st.sink, by simp [SinkState.seek, hs], rfl, rfl⟩
    | some rs =>
      exact ⟨{ st.sink with sink := some { rs with pos := 0 }, durationPlayed := 0 },
        by simp [SinkState.seek, hs, hseek], rfl, rfl⟩
  have heval : Player.skipToPosition env st newPosition false =
      .ok { st with sink := sink', position := sink'.position } := by
    simp only [Player.skipToPosition]
    rw [if_pos hcond]
    simp [Player.seek, hsk, sendPosition, hsend, except_bind_ok]
  refine ⟨sink', hsk, heval, hsend', houts, ?_⟩
  intro st' hst'
  rw [heval] at hst'
  simp only [Except.ok.injEq] at hst'
  subst hst'
  exact ⟨rfl, rfl, rfl, rfl, rfl⟩

/-- A concrete player state five seconds into the second of two tracks. -/
def samplePlayerStateSecond : PlayerState :=
  { tracklist := ⟨[⟨{ sampleTrack 1 with status := .played }, 0⟩,
        ⟨{ sampleTrack 2 with status := .playing }, 1⟩], .tracks⟩
    targetStatus := .playing
    sink := sampleSinkAt48k
    position := 5000
    nextTrackIsQueried := false
    nextTrackInSinkQueue := false
    stateChangeDelay := none
    sampleRateChangeDelay := none }

/-- Witness for `skip_to_position_restart`: five seconds into the second
track, skipping back to zero without force. -/
theorem skip_to_position_restart_witness :
    ∃ sink', SinkState.seek sampleEnv samplePlayerStateSecond.sink 0 = .ok sink' ∧
      Player.skipToPosition sampleEnv samplePlayerStateSecond 0 false =
        .ok { samplePlayerStateSecond with sink := sink', position := sink'.position } := by
  obtain ⟨sink', h1, h2, _⟩ :=
    skip_to_position_restart sampleEnv samplePlayerStateSecond 0 (by decide) rfl rfl
      (by decide) (by decide)
  exact ⟨sink', h1, h2⟩

/-! ### Player-loop failure semantics (C6) -/

/-- C6: every error from one of the four handlers becomes exactly one
`Error` notification on the broadcast and the loop continues; the loop
breaks only on an exit event carrying `true` (and it does break there,
with no notification). -/
theorem player_loop_error_handling (h : LoopHandlers) :
    (∀ ev : LoopEvent, (playerLoopStep h ev).1 = true → ev = .exit true) ∧
    ((playerLoopStep h (.exit true)).1 = true ∧ (playerLoopStep h (.exit true)).2 = []) ∧
    (∀ e, h.tick = .error e →
      playerLoopStep h .tick = (false, [Notification.error e])) ∧
    (∀ c e, h.handleMessage c = .error e →
      playerLoopStep h (.command c) = (false, [Notification.error e])) ∧
    (∀ e, h.trackFinishedH = .error e →
      playerLoopStep h .trackFinished = (false, [Notification.error e])) ∧
    (∀ p e, h.doneBufferingH p = .error e →
      playerLoopStep h (.doneBuffering p) = (false, [Notification.error e])) := by
  refine ⟨?_, ⟨rfl, rfl⟩, ?_, ?_, ?_, ?_⟩
  · intro ev hev
    cases ev with
    | tick => cases htick : h.tick <;> simp [playerLoopStep, htick] at hev
    | command c => cases hc : h.handleMessage c <;> simp [playerLoopStep, hc] at hev
    | trackFinished => cases htf : h.trackFinishedH <;> simp [playerLoopStep, htf] at hev
    | doneBuffering p =>
      cases hp : h.doneBufferingH p <;> simp [playerLoopStep, hp] at hev
    | exit b =>
      simp only [playerLoopStep] at hev
      rw [hev]
  · intro e he
    simp [playerLoopStep, he, sendError]
  · intro c e he
    simp [playerLoopStep, he, sendError]
  · intro e he
    simp [playerLoopStep, he, sendError]
  · intro p e he
    simp [playerLoopStep, he, sendError]

/-- Handlers that all fail with the same message, for the witness. -/
def sampleFailingHandlers : LoopHandlers :=
  ⟨.error "boom", fun _ => .error "boom", .error "boom", fun _ => .error "boom"⟩

/-- Witness for `player_loop_error_handling` with failing handlers. -/
theorem player_loop_error_handling_witness :
    playerLoopStep sampleFailingHandlers .tick = (false, [Notification.error "boom"]) ∧
    (playerLoopStep sampleFailingHandlers (.exit true)).1 = true :=
  ⟨(player_loop_error_handling sampleFailingHandlers).2.2.1 "boom" rfl,
    (player_loop_error_handling sampleFailingHandlers).2.1.1⟩

/-! ### Output-device selection (C9) -/

/-- C9: a configured device name that opens is preferred over everything
else; with no configured name the `open_default_stream` chain runs: the
system default first, and when that fails the first output device that
opens at the rate or falls back. -/
theorem device_selection_spec (env : AudioEnv) (rate : Nat) :
    (∀ name s, env.openNamed name = some s →
      openStreamPreferring (some name) rate env = some s) ∧
    (openStreamPreferring none rate env = openDefaultStream rate env) ∧
    (∀ s, env.openDefault rate = some s → openDefaultStream rate env = some s) ∧
    (env.openDefault rate = none →
      openDefaultStream rate env = firstOpening env.outputDevices rate env) ∧
    (∀ d rest s, env.openWithFallback d rate = some s →
      firstOpening (d :: rest) rate env = some s) := by
  refine ⟨?_, rfl, ?_, ?_, ?_⟩
  · intro name s hn
    simp [openStreamPreferring, hn]
  · intro s hd
    simp [openDefaultStream, hd]
  · intro hd
    simp [openDefaultStream, hd]
  · intro d rest s hd
    simp [firstOpening, hd]

/-- A concrete audio world: a named USB device, a working default device,
and one enumerable output device. -/
def sampleAudioEnv : AudioEnv :=
  ⟨fun n => if n = "usb-dac" then some ⟨1⟩ else none,
    fun _ => some ⟨2⟩, [⟨"builtin"⟩], fun _ _ => some ⟨3⟩⟩

/-- Witness for `device_selection_spec`: the configured name wins; with
no name the default device is opened. -/
theorem device_selection_spec_witness :
    openStreamPreferring (some "usb-dac") 44100 sampleAudioEnv = some ⟨1⟩ ∧
    openStreamPreferring none 44100 sampleAudioEnv = some ⟨2⟩ := by
  have h := device_selection_spec sampleAudioEnv 44100
  exact ⟨h.1 "usb-dac" ⟨1⟩ (by decide), h.2.1.trans (h.2.2.1 ⟨2⟩ rfl)⟩

end QobuzPlayer
